import Mathlib

/-!
Shallow embedding of the canonical diff/dedup variant of
`src/stampede-checker.mjs` (the second script in the file, lines 196-413):
slot normalization (`parseTime`, `getTypeName`), key-space construction
(`slotKey`, the scan loop of `main`), the set diff, notification line
composition (`groupLinesFromKeys`), the dispatcher with its 2-minute
dedup cooldown and 4-hour keepalive window, and the persisted-state
load/save logic.

Modelling conventions:
* JavaScript `Date` objects are `JSDate`: either a valid epoch-millisecond
  instant (an `Int`) or the Invalid Date produced when the time value falls
  outside the ECMAScript range of +-8.64e15 ms.  `new Date(ms)` is
  `jsDateOfMs`, `new Date(string)` is `dateFromString`, restricted to the
  ECMAScript-specified date-time string format (implementation-specific
  fallback formats of particular engines are outside the model).
* JS numbers occurring as epoch times or counts are modelled as `Int`.
* `toLocaleTimeString("en-GB", hour/minute 2-digit, Europe/London)` and
  `toLocaleDateString` are implemented from the civil-calendar algorithms
  plus the UK daylight-saving rule (BST between 01:00 UTC on the last
  Sunday of March and 01:00 UTC on the last Sunday of October).
* JS `Set` values keep insertion order and deduplicate; they are modelled
  as `List String` with membership-checked insertion (`addKey`), and the
  key-to-metadata `Map` as an association list with first-writer-wins
  insertion (`addMeta`), exactly as the source's `Map.set` guarded by
  `meta.has(key)`.
-/

namespace Stampede

/-- Days-to-civil-date conversion (proleptic Gregorian calendar), the
standard algorithm used by every epoch/calendar implementation; `z` is a
count of days since 1970-01-01.  Returns `(year, month, day)`. -/
def civilFromDays (z : Int) : Int × Int × Int :=
  let z' := z + 719468
  let era := Int.fdiv z' 146097
  let doe := z' - era * 146097
  let yoe := Int.fdiv (doe - Int.fdiv doe 1460 + Int.fdiv doe 36524 - Int.fdiv doe 146096) 365
  let y := yoe + era * 400
  let doy := doe - (365 * yoe + Int.fdiv yoe 4 - Int.fdiv yoe 100)
  let mp := Int.fdiv (5 * doy + 2) 153
  let d := doy - Int.fdiv (153 * mp + 2) 5 + 1
  let m := mp + (if mp < 10 then 3 else -9)
  (y + (if m ≤ 2 then 1 else 0), m, d)

/-- Civil-date-to-days conversion, inverse of `civilFromDays`. -/
def daysFromCivil (y m d : Int) : Int :=
  let y' := y - (if m ≤ 2 then 1 else 0)
  let era := Int.fdiv y' 400
  let yoe := y' - era * 400
  let mp := m + (if m > 2 then -3 else 9)
  let doy := Int.fdiv (153 * mp + 2) 5 + d - 1
  let doe := yoe * 365 + Int.fdiv yoe 4 - Int.fdiv yoe 100 + doy
  era * 146097 + doe - 719468

/-- A JavaScript `Date`: a valid epoch-millisecond time value, or the
Invalid Date whose time value is NaN. -/
inductive JSDate where
  | valid (ms : Int)
  | invalid
  deriving DecidableEq, Repr

/-- Model of `new Date(ms)` for a numeric argument: valid iff the absolute time
value is at most 8.64e15 ms (the ECMAScript `Date` range). -/
def jsDateOfMs (ms : Int) : JSDate :=
  if ms.natAbs ≤ 8640000000000000 then .valid ms else .invalid

/-- Epoch milliseconds of 01:00 UTC on the last Sunday of month `m`
(March or October, both 31-day months) of year `y`: the UK clock-change
instant. -/
def lastSundayStartMs (y m : Int) : Int :=
  let zEnd := daysFromCivil y m 31
  let dow := (zEnd + 4).emod 7
  (zEnd - dow) * 86400000 + 3600000

/-- UTC offset of the `Europe/London` timezone, in minutes, at a given
epoch-millisecond instant: 60 during British Summer Time (from 01:00 UTC
on the last Sunday of March to 01:00 UTC on the last Sunday of October),
0 otherwise. -/
def londonOffsetMin (ms : Int) : Int :=
  let z := Int.fdiv ms 86400000
  let y := (civilFromDays z).1
  if lastSundayStartMs y 3 ≤ ms ∧ ms < lastSundayStartMs y 10 then 60 else 0

/-- Zero-padded two-digit rendering of a small nonnegative integer. -/
def pad2 (n : Int) : String :=
  if n < 10 then "0" ++ toString n else toString n

/-- Model of `dt.toLocaleTimeString("en-GB", { hour: "2-digit", minute: "2-digit",
timeZone: TZ })` with `TZ = "Europe/London"`: 24-hour `HH:MM` wall-clock
in London, or the string `"Invalid Date"` for an Invalid Date. -/
def JSDate.toHM : JSDate → String
  | .invalid => "Invalid Date"
  | .valid ms =>
    let loc := ms + londonOffsetMin ms * 60000
    let msday := Int.fmod loc 86400000
    pad2 (Int.fdiv msday 3600000) ++ ":" ++ pad2 (Int.fdiv (Int.fmod msday 3600000) 60000)

def weekdayName (w : Int) : String :=
  if w = 0 then "Sun" else if w = 1 then "Mon" else if w = 2 then "Tue"
  else if w = 3 then "Wed" else if w = 4 then "Thu" else if w = 5 then "Fri" else "Sat"

def monthName (m : Int) : String :=
  if m = 1 then "Jan" else if m = 2 then "Feb" else if m = 3 then "Mar"
  else if m = 4 then "Apr" else if m = 5 then "May" else if m = 6 then "Jun"
  else if m = 7 then "Jul" else if m = 8 then "Aug" else if m = 9 then "Sep"
  else if m = 10 then "Oct" else if m = 11 then "Nov" else "Dec"

/-- Numeric value of a decimal digit character. -/
def digitVal (c : Char) : Int := (c.toNat : Int) - 48

def twoDigits (a b : Char) : Int := 10 * digitVal a + digitVal b

def isLeap (y : Int) : Bool := (y.emod 4 = 0 ∧ y.emod 100 ≠ 0) ∨ y.emod 400 = 0

def daysInMonth (y m : Int) : Int :=
  if m = 2 then (if isLeap y then 29 else 28)
  else if m = 4 ∨ m = 6 ∨ m = 9 ∨ m = 11 then 30 else 31

/-- Build a valid UTC instant from civil components, rejecting
out-of-range fields the way the ECMAScript date-time string parser does. -/
def mkUTC (y m d hh mi ss ms3 : Int) : JSDate :=
  if 1 ≤ m ∧ m ≤ 12 ∧ 1 ≤ d ∧ d ≤ daysInMonth y m ∧ hh ≤ 23 ∧ mi ≤ 59 ∧ ss ≤ 59 then
    jsDateOfMs (daysFromCivil y m d * 86400000 + hh * 3600000 + mi * 60000 + ss * 1000 + ms3)
  else .invalid

def digits2 (a b : Char) : Bool := a.isDigit && b.isDigit

def digits4 (a b c d : Char) : Bool := a.isDigit && b.isDigit && c.isDigit && d.isDigit

/-- Model of `new Date(string)`: the ECMAScript date-time string format, in the
shapes reachable from this program — a date-only `YYYY-MM-DD` (UTC
midnight) or a `YYYY-MM-DDTHH:MM[:SS[.sss]]Z` UTC date-time (the source
appends a `Z` to every `T`-containing string before parsing, so the
zone-less local-time form never reaches the parser).  Anything else is
an Invalid Date. -/
def dateFromString (str : String) : JSDate :=
  match str.toList with
  | [a, b, c, d, '-', e, f, '-', g, h] =>
    if digits4 a b c d && digits2 e f && digits2 g h then
      mkUTC (1000 * digitVal a + 100 * digitVal b + 10 * digitVal c + digitVal d)
        (twoDigits e f) (twoDigits g h) 0 0 0 0
    else .invalid
  | a :: b :: c :: d :: '-' :: e :: f :: '-' :: g :: h :: 'T' :: rest =>
    if digits4 a b c d && digits2 e f && digits2 g h then
      let y := 1000 * digitVal a + 100 * digitVal b + 10 * digitVal c + digitVal d
      let mo := twoDigits e f
      let da := twoDigits g h
      match rest with
      | [h1, h2, ':', n1, n2, 'Z'] =>
        if digits2 h1 h2 && digits2 n1 n2 then
          mkUTC y mo da (twoDigits h1 h2) (twoDigits n1 n2) 0 0
        else .invalid
      | [h1, h2, ':', n1, n2, ':', s1, s2, 'Z'] =>
        if digits2 h1 h2 && digits2 n1 n2 && digits2 s1 s2 then
          mkUTC y mo da (twoDigits h1 h2) (twoDigits n1 n2) (twoDigits s1 s2) 0
        else .invalid
      | [h1, h2, ':', n1, n2, ':', s1, s2, '.', p, q, r, 'Z'] =>
        if digits2 h1 h2 && digits2 n1 n2 && digits2 s1 s2 && p.isDigit && q.isDigit && r.isDigit then
          mkUTC y mo da (twoDigits h1 h2) (twoDigits n1 n2) (twoDigits s1 s2)
            (100 * digitVal p + 10 * digitVal q + digitVal r)
        else .invalid
      | _ => .invalid
    else .invalid
  | _ => .invalid

/-- Model of `fmtUKDate`: `new Date(isoDate + "T00:00:00Z").toLocaleDateString("en-GB",
weekday short / day 2-digit / month short / year numeric, Europe/London)`,
for example `"Sun, 01 Jun 2025"`; `"Invalid Date"` when the date string
does not parse. -/
def fmtUKDate (isoDate : String) : String :=
  match dateFromString (isoDate ++ "T00:00:00Z") with
  | .invalid => "Invalid Date"
  | .valid ms =>
    let loc := ms + londonOffsetMin ms * 60000
    let z := Int.fdiv loc 86400000
    let c := civilFromDays z
    weekdayName ((z + 4).emod 7) ++ ", " ++ pad2 c.2.2 ++ " " ++ monthName c.2.1 ++ " " ++ toString c.1

/-- A value found in one of the time-like fields of a raw slot: a JS
number (epoch seconds or milliseconds) or a string. -/
inductive TimeVal where
  | num (n : Int)
  | str (s : String)
  deriving DecidableEq, Repr

/-- A value found in one of the type-like fields of a raw slot: an object
carrying a `name` property, or a plain string.  When a `named` object is
used directly as a string (the trailing `?? slot.category ?? slot.type`
operands), JS renders it as `"[object Object]"`. -/
inductive TypeVal where
  | named (name : String)
  | plain (s : String)
  deriving DecidableEq, Repr

def TypeVal.nameOf : TypeVal → Option String
  | .named n => some n
  | .plain _ => none

def TypeVal.asString : TypeVal → String
  | .named _ => "[object Object]"
  | .plain s => s

/-- A raw slot record from the availability API, with every field the
canonical script probes; absent fields are `none` (JS
`undefined`).  `slots_left` holds the numeric remaining-capacity count
when present (`typeof s.slots_left === "number"`). -/
structure RawSlot where
  start_time : Option TimeVal := none
  time : Option TimeVal := none
  label : Option TimeVal := none
  start : Option TimeVal := none
  startTime : Option TimeVal := none
  starts_at : Option TimeVal := none
  startsAt : Option TimeVal := none
  datetime : Option TimeVal := none
  value : Option TimeVal := none
  slot : Option TimeVal := none
  booking_type_name : Option String := none
  type : Option TypeVal := none
  booking_type : Option TypeVal := none
  category : Option TypeVal := none
  slots_left : Option Int := none
  deriving DecidableEq, Repr

/-- The nullish-coalescing chain of lines 222-224 pulling a time-like
value out of a slot object:
`v.start_time ?? v.time ?? v.label ?? v.start ?? v.startTime ??
 v.starts_at ?? v.startsAt ?? v.datetime ?? v.value ?? v.slot`. -/
def rawTimeOf (v : RawSlot) : Option TimeVal :=
  v.start_time <|> v.time <|> v.label <|> v.start <|> v.startTime <|>
  v.starts_at <|> v.startsAt <|> v.datetime <|> v.value <|> v.slot

/-- Model of `getTypeName` (lines 239-245):
`slot?.booking_type_name ?? slot?.type?.name ?? slot?.booking_type?.name ??
 slot?.category?.name ?? slot?.category ?? slot?.type ?? null`. -/
def getTypeName (s : RawSlot) : Option String :=
  s.booking_type_name <|>
  s.type.bind TypeVal.nameOf <|>
  s.booking_type.bind TypeVal.nameOf <|>
  s.category.bind TypeVal.nameOf <|>
  s.category.map TypeVal.asString <|>
  s.type.map TypeVal.asString

/-- The `/^\d{2}:\d{2}(:\d{2})?$/` test of line 230. -/
def isHHMM (s : String) : Bool :=
  match s.toList with
  | [a, b, ':', c, d] => digits2 a b && digits2 c d
  | [a, b, ':', c, d, ':', e, f] => digits2 a b && digits2 c d && digits2 e f
  | _ => false

/-- The `/^\d{4}-\d{2}-\d{2}T/` test of line 234. -/
def isIsoTPrefix (s : String) : Bool :=
  match s.toList with
  | a :: b :: c :: d :: '-' :: e :: f :: '-' :: g :: h :: 'T' :: _ =>
    digits4 a b c d && digits2 e f && digits2 g h
  | _ => false

/-- Model of `parseTime(isoDate, v)` (lines 220-237) for the object-valued `v` the
main loop always passes (a slot object is truthy, so the leading
`if (!v) return null` never fires for it):
* no time-like field: `null`;
* numeric field: `new Date(raw > 1e12 ? raw : raw * 1000)`, returned
  without a validity check;
* `HH:MM[:SS]` string: `new Date(isoDate + "T" + hhmmss + "Z")`, returned
  without a validity check;
* other strings: append `"Z"` when the string starts like an ISO
  date-time and does not already end in `"Z"`, then `new Date(iso)`,
  returning `null` in place of an Invalid Date (`isNaN(d) ? null : d`). -/
def parseTime (isoDate : String) (v : RawSlot) : Option JSDate :=
  match rawTimeOf v with
  | none => none
  | some (.num n) => some (jsDateOfMs (if 1000000000000 < n then n else n * 1000))
  | some (.str raw) =>
    let s := raw.trim
    if isHHMM s then
      let hhmmss := if s.length = 5 then s ++ ":00" else s
      some (dateFromString (isoDate ++ "T" ++ hhmmss ++ "Z"))
    else
      let iso := if isIsoTPrefix s then (if s.endsWith "Z" then s else s ++ "Z") else s
      match dateFromString iso with
      | .invalid => none
      | .valid ms => some (.valid ms)

/-- Model of `slotKey` (line 259): the template literal
joining date, type and local-time string with `"|"`. -/
def slotKey (isoDate ty timeHM : String) : String :=
  isoDate ++ "|" ++ ty ++ "|" ++ timeHM

/-- Display metadata recorded per key (line 347). -/
structure SlotMeta where
  isoDate : String
  dateUK : String
  type : String
  timeHM : String
  slotsLeft : Option Int
  deriving DecidableEq, Repr

/-- JS `Set.add`: append iff not already present (insertion order kept). -/
def addKey (ks : List String) (k : String) : List String :=
  if k ∈ ks then ks else ks ++ [k]

/-- Model of `new Set(list)`: deduplicate, keeping first occurrences in order. -/
def jsSetOf (l : List String) : List String := l.foldl addKey []

/-- JS `Map.get` on the association-list model of the metadata map. -/
def metaFind (m : List (String × SlotMeta)) (k : String) : Option SlotMeta :=
  (m.find? (fun p => p.1 = k)).map (·.2)

/-- The guarded `if (!meta.has(key)) meta.set(key, ...)` of line 346:
first writer wins. -/
def addMeta (m : List (String × SlotMeta)) (k : String) (v : SlotMeta) :
    List (String × SlotMeta) :=
  if (metaFind m k).isSome then m else m ++ [(k, v)]

/-- One iteration of the inner scan loop (lines 338-349): normalize the
slot, skip it when `parseTime` yields `null`, otherwise insert its key
into the key set and (first writer wins) the metadata map. -/
def processSlot (d : String) (s : RawSlot)
    (acc : List String × List (String × SlotMeta)) :
    List String × List (String × SlotMeta) :=
  match parseTime d s with
  | none => acc
  | some dt =>
    let timeHM := dt.toHM
    let ty := (getTypeName s).getD "_"
    let key := slotKey d ty timeHM
    (addKey acc.1 key, addMeta acc.2 key ⟨d, fmtUKDate d, ty, timeHM, s.slots_left⟩)

/-- The full scan (lines 330-350) over the fetched `(date, slots)` pairs,
producing `currentKeys` and `meta`.  A date whose fetch produced no slots
contributes nothing (`if (!slots.length) continue` coincides with folding
over an empty list). -/
def scanAll (dated : List (String × List RawSlot)) :
    List String × List (String × SlotMeta) :=
  dated.foldl (fun acc p => p.2.foldl (fun a s => processSlot p.1 s a) acc) ([], [])

/-- Model of `[...currentKeys].filter(k => !previousKeys.has(k))` (line 362). -/
def addedOf (previousKeys currentKeys : List String) : List String :=
  currentKeys.filter (fun k => !(previousKeys.contains k))

/-- Model of `[...previousKeys].filter(k => !currentKeys.has(k))` (line 363). -/
def removedOf (previousKeys currentKeys : List String) : List String :=
  previousKeys.filter (fun k => !(currentKeys.contains k))

/-- Insertion sort under the default JS `Array.sort()` comparator
(lexicographic string order); applied only to duplicate-free lists, where
every sorting algorithm agrees. -/
def insertStr (x : String) : List String → List String
  | [] => [x]
  | y :: ys => if x ≤ y then x :: y :: ys else y :: insertStr x ys

def sortStr (l : List String) : List String := l.foldr insertStr []

/-- Insert a time string into the per-label set of
`byLabel` (`byLabel.get(label).add(...)`, lines 313-316), creating the
label entry on first sight. -/
def labelAdd (m : List (String × List String)) (label t : String) :
    List (String × List String) :=
  match m with
  | [] => [(label, [t])]
  | (l, ts) :: rest =>
    if l = label then (l, addKey ts t) :: rest else (l, ts) :: labelAdd rest label t

def labelFind (m : List (String × List String)) (label : String) : List String :=
  ((m.find? (fun p => p.1 = label)).map (·.2)).getD []

/-- Model of `groupLinesFromKeys(keys, metaMap)` (lines 308-327): group the keys
by `dateUK|type` label (keys without metadata are skipped), then render
one line per label in sorted label order, with the deduplicated sorted
time list, each time suffixed `" [N left]"` when a remaining count is
known, and a `" (type)"` suffix unless the type is the `"_"` sentinel
(or missing after the split, which JS leaves `undefined`, falsy). -/
def groupLines (keys : List String) (metaMap : List (String × SlotMeta)) : List String :=
  let byLabel := keys.foldl (fun acc k =>
    match metaFind metaMap k with
    | none => acc
    | some m =>
      let tag := match m.slotsLeft with
        | some n => " [" ++ toString n ++ " left]"
        | none => ""
      labelAdd acc (m.dateUK ++ "|" ++ m.type) (m.timeHM ++ tag)) []
  let labels := sortStr (byLabel.map (·.1))
  labels.map (fun label =>
    let parts := label.splitOn "|"
    let dateUK := (parts[0]?).getD ""
    let ty := (parts[1]?).getD ""
    let suffix := if ty ≠ "" ∧ ty ≠ "_" then " (" ++ ty ++ ")" else ""
    "• **" ++ dateUK ++ "** — " ++ String.intercalate ", " (sortStr (labelFind byLabel label)) ++ suffix)

/-- Constant `DEDUPE_COOLDOWN_MS = 2 * 60 * 1000` (line 208). -/
def DEDUPE_COOLDOWN_MS : Int := 2 * 60 * 1000

/-- The in-memory `state` object: `{ keys: [], lastHash: "", lastSentAt: 0 }`
(line 353). -/
structure StateFile where
  keys : List String
  lastHash : String
  lastSentAt : Int
  deriving DecidableEq, Repr

/-- Outcome of `JSON.parse` on the persisted state file's content,
modelled at the parse-tree level: either the parse throws (`malformed`),
or it yields an object whose three relevant properties are each present
or absent (absent properties leave the defaults via the
`{ ...state, ...raw }` spread). -/
inductive StateParse where
  | malformed
  | parsed (keys : Option (List String)) (lastHash : Option String) (lastSentAt : Option Int)
  deriving DecidableEq, Repr

/-- State loading (lines 352-359): start from the default state; when the
file exists and parses, spread the parsed fields over the defaults; a
parse failure is swallowed by the empty `catch {}`.  Total — no exception
escapes. -/
def loadState : Option StateParse → StateFile
  | none => ⟨[], "", 0⟩
  | some .malformed => ⟨[], "", 0⟩
  | some (.parsed k h t) => ⟨k.getD [], h.getD "", t.getD 0⟩

/-- Effect of `fs.writeFileSync(stateFile, JSON.stringify(state))` (line 412), seen
through the next run's `JSON.parse`: every field present. -/
def writeState (st : StateFile) : StateParse :=
  .parsed (some st.keys) (some st.lastHash) (some st.lastSentAt)

/-- JSON string literal as produced by `JSON.stringify` for the strings
this program builds (none of which contain characters needing escapes). -/
def jsonStr (s : String) : String := "\"" ++ s ++ "\""

def jsonArr (l : List String) : String :=
  "[" ++ String.intercalate "," (l.map jsonStr) ++ "]"

/-- Model of `payloadForHash = JSON.stringify({ added: addedLines, removed:
removedLines })` (line 368), standing in for its own SHA-1 hex digest
(line 369): the dispatcher only ever compares the stored and freshly
computed digests for equality, and equal payloads have equal digests, so
the digest is modelled by the hashed payload itself. -/
def notifHashOf (addedLines removedLines : List String) : String :=
  "\x7b\"added\":" ++ jsonArr addedLines ++ ",\"removed\":" ++ jsonArr removedLines ++ "\x7d"

/-- One outbound webhook attempt: `sendEmbed` with the added lines
(green), `sendEmbed` with the removed lines (red), or the keepalive
embed.  `sendEmbed` swallows network failures, so an attempt's success
has no effect on anything the model tracks. -/
inductive Send where
  | addedEmbed (lines : List String)
  | removedEmbed (lines : List String)
  | keepalive
  deriving DecidableEq, Repr

def Send.isDiff : Send → Bool
  | .keepalive => false
  | _ => true

structure RunResult where
  sends : List Send
  finalState : StateFile
  deriving DecidableEq, Repr

def hasDiffSend (r : RunResult) : Bool := r.sends.any Send.isDiff

/-- The dispatcher (lines 368-412): hash the composed diff, overwrite
`state.keys` with the current key set (line 373, before any branch),
then in priority order — non-empty diff lines (suppressed when the hash
matches the stored one within the 2-minute cooldown, otherwise send and
record hash and timestamp), else keepalive when the machine-local
wall-clock reading `now.getHours() % 4 === 0 && now.getMinutes() < 5`
holds, else nothing — and finally persist the state. -/
def dispatch (currentKeys addedLines removedLines : List String)
    (st : StateFile) (nowMs hours minutes : Int) : RunResult :=
  let notifHash := notifHashOf addedLines removedLines
  let withinCooldown := nowMs - st.lastSentAt < DEDUPE_COOLDOWN_MS
  let st1 : StateFile := { st with keys := currentKeys }
  let shouldKeepAlive := hours.emod 4 = 0 ∧ minutes < 5
  if addedLines ≠ [] ∨ removedLines ≠ [] then
    if st.lastHash = notifHash ∧ withinCooldown then
      ⟨[], st1⟩
    else
      ⟨(if addedLines ≠ [] then [Send.addedEmbed addedLines] else []) ++
       (if removedLines ≠ [] then [Send.removedEmbed removedLines] else []),
       { st1 with lastHash := notifHash, lastSentAt := nowMs }⟩
  else if shouldKeepAlive then ⟨[Send.keepalive], st1⟩
  else ⟨[], st1⟩

/-- Everything one invocation of the script consumes: the fetched
per-date slot lists, the state file (absent, or its parse outcome),
`Date.now()`, and the machine-local `getHours()`/`getMinutes()` reading. -/
structure RunInput where
  scan : List (String × List RawSlot)
  file : Option StateParse
  nowMs : Int
  hours : Int
  minutes : Int
  deriving Repr

/-- The composed `(addedLines, removedLines)` of a run (lines 361-366). -/
def linesOf (inp : RunInput) : List String × List String :=
  let scanned := scanAll inp.scan
  let previousKeys := jsSetOf (loadState inp.file).keys
  (groupLines (addedOf previousKeys scanned.1) scanned.2,
   groupLines (removedOf previousKeys scanned.1) scanned.2)

/-- One complete run of the canonical script's `main` (lines 330-413). -/
def runMain (inp : RunInput) : RunResult :=
  let scanned := scanAll inp.scan
  let ls := linesOf inp
  dispatch scanned.1 ls.1 ls.2 (loadState inp.file) inp.nowMs inp.hours inp.minutes

/-! ### Supporting definitions and lemmas -/

/-- The key computed for one normalized slot in the scan loop (lines
341-344): `slotKey(d, getTypeName(s) ?? "_", timeHM)`, or `none` when the
slot is discarded. -/
def slotKeyOf (d : String) (s : RawSlot) : Option String :=
  (parseTime d s).map (fun dt => slotKey d ((getTypeName s).getD "_") dt.toHM)

/-- Forget the remaining-capacity field: two slots `s`, `t` with
`eraseSL s = eraseSL t` differ (at most) in `slots_left` alone. -/
def eraseSL (s : RawSlot) : RawSlot := { s with slots_left := none }

theorem rawTimeOf_eraseSL (s : RawSlot) : rawTimeOf (eraseSL s) = rawTimeOf s := rfl

theorem getTypeName_eraseSL (s : RawSlot) : getTypeName (eraseSL s) = getTypeName s := rfl

theorem parseTime_eraseSL (d : String) (s : RawSlot) :
    parseTime d (eraseSL s) = parseTime d s := rfl

theorem parseTime_congr (d : String) {s t : RawSlot} (h : eraseSL s = eraseSL t) :
    parseTime d s = parseTime d t := by
  rw [← parseTime_eraseSL d s, ← parseTime_eraseSL d t, h]

theorem getTypeName_congr {s t : RawSlot} (h : eraseSL s = eraseSL t) :
    getTypeName s = getTypeName t := by
  rw [← getTypeName_eraseSL s, ← getTypeName_eraseSL t, h]

theorem slotKeyOf_congr (d : String) {s t : RawSlot} (h : eraseSL s = eraseSL t) :
    slotKeyOf d s = slotKeyOf d t := by
  unfold slotKeyOf
  rw [parseTime_congr d h, getTypeName_congr h]

/-- The key-set half of `processSlot` is exactly `slotKeyOf`. -/
theorem processSlot_fst (d : String) (s : RawSlot)
    (acc : List String × List (String × SlotMeta)) :
    (processSlot d s acc).1 =
      match slotKeyOf d s with
      | none => acc.1
      | some k => addKey acc.1 k := by
  unfold processSlot slotKeyOf
  cases parseTime d s <;> rfl

theorem processSlot_fst_congr (d : String) {s t : RawSlot} (h : eraseSL s = eraseSL t)
    {a1 a2 : List String × List (String × SlotMeta)} (hk : a1.1 = a2.1) :
    (processSlot d s a1).1 = (processSlot d t a2).1 := by
  rw [processSlot_fst, processSlot_fst, slotKeyOf_congr d h]
  cases slotKeyOf d t <;> simp [hk]

theorem processSlot_none {d : String} {s : RawSlot}
    {acc : List String × List (String × SlotMeta)} (hp : parseTime d s = none) :
    processSlot d s acc = acc := by
  unfold processSlot
  rw [hp]

theorem processSlot_some {d : String} {s : RawSlot}
    {acc : List String × List (String × SlotMeta)} {dt : JSDate}
    (hp : parseTime d s = some dt) :
    processSlot d s acc =
      (addKey acc.1 (slotKey d ((getTypeName s).getD "_") dt.toHM),
       addMeta acc.2 (slotKey d ((getTypeName s).getD "_") dt.toHM)
         ⟨d, fmtUKDate d, (getTypeName s).getD "_", dt.toHM, s.slots_left⟩) := by
  unfold processSlot
  rw [hp]

/-- Pointwise "differ only in `slots_left`" on slot lists. -/
def slotsSameBR : List RawSlot → List RawSlot → Bool
  | [], [] => true
  | s :: ss, t :: ts => decide (eraseSL s = eraseSL t) && slotsSameBR ss ts
  | _, _ => false

/-- Pointwise "same dates, slots differ only in `slots_left`" on scans. -/
def scanSameBR : List (String × List RawSlot) → List (String × List RawSlot) → Bool
  | [], [] => true
  | p :: ps, q :: qs => decide (p.1 = q.1) && slotsSameBR p.2 q.2 && scanSameBR ps qs
  | _, _ => false

theorem foldSlots_fst_congr (d : String) :
    ∀ (ss ts : List RawSlot), slotsSameBR ss ts = true →
    ∀ (a1 a2 : List String × List (String × SlotMeta)), a1.1 = a2.1 →
    (ss.foldl (fun a s => processSlot d s a) a1).1
      = (ts.foldl (fun a s => processSlot d s a) a2).1
  | [], [], _, _, _, hk => hk
  | [], _ :: _, h, _, _, _ => by simp [slotsSameBR] at h
  | _ :: _, [], h, _, _, _ => by simp [slotsSameBR] at h
  | s :: ss, t :: ts, h, a1, a2, hk => by
    simp only [slotsSameBR, Bool.and_eq_true, decide_eq_true_eq] at h
    exact foldSlots_fst_congr d ss ts h.2 _ _ (processSlot_fst_congr d h.1 hk)

theorem scanFold_fst_congr :
    ∀ (l1 l2 : List (String × List RawSlot)), scanSameBR l1 l2 = true →
    ∀ (a1 a2 : List String × List (String × SlotMeta)), a1.1 = a2.1 →
    (l1.foldl (fun acc p => p.2.foldl (fun a s => processSlot p.1 s a) acc) a1).1
      = (l2.foldl (fun acc p => p.2.foldl (fun a s => processSlot p.1 s a) acc) a2).1
  | [], [], _, _, _, hk => hk
  | [], _ :: _, h, _, _, _ => by simp [scanSameBR] at h
  | _ :: _, [], h, _, _, _ => by simp [scanSameBR] at h
  | p :: ps, q :: qs, h, a1, a2, hk => by
    simp only [scanSameBR, Bool.and_eq_true, decide_eq_true_eq] at h
    refine scanFold_fst_congr ps qs h.2 _ _ ?_
    show (p.2.foldl (fun a s => processSlot p.1 s a) a1).1
      = (q.2.foldl (fun a s => processSlot q.1 s a) a2).1
    rw [h.1.1]
    exact foldSlots_fst_congr q.1 p.2 q.2 h.1.2 a1 a2 hk

theorem scanAll_fst_congr {l1 l2 : List (String × List RawSlot)}
    (h : scanSameBR l1 l2 = true) : (scanAll l1).1 = (scanAll l2).1 :=
  scanFold_fst_congr l1 l2 h ([], []) ([], []) rfl

theorem mem_addedOf {prev cur : List String} {k : String} :
    k ∈ addedOf prev cur ↔ k ∈ cur ∧ k ∉ prev := by
  simp [addedOf, List.mem_filter]

theorem mem_removedOf {prev cur : List String} {k : String} :
    k ∈ removedOf prev cur ↔ k ∈ prev ∧ k ∉ cur := by
  simp [removedOf, List.mem_filter]

theorem addedOf_self (l : List String) : addedOf l l = [] := by
  rw [List.eq_nil_iff_forall_not_mem]
  intro k hk
  exact (mem_addedOf.mp hk).2 (mem_addedOf.mp hk).1

theorem removedOf_self (l : List String) : removedOf l l = [] := by
  rw [List.eq_nil_iff_forall_not_mem]
  intro k hk
  exact (mem_removedOf.mp hk).2 (mem_removedOf.mp hk).1

theorem loadState_writeState (st : StateFile) :
    loadState (some (writeState st)) = st := by
  cases st
  rfl

theorem dispatch_suppressed (cur a r : List String) (st : StateFile) (n h m : Int)
    (hne : a ≠ [] ∨ r ≠ []) (hh : st.lastHash = notifHashOf a r)
    (hc : n - st.lastSentAt < DEDUPE_COOLDOWN_MS) :
    (dispatch cur a r st n h m).sends = [] := by
  unfold dispatch
  rw [if_pos hne, if_pos ⟨hh, hc⟩]

theorem dispatch_sent (cur a r : List String) (st : StateFile) (n h m : Int)
    (hd : hasDiffSend (dispatch cur a r st n h m) = true) :
    (a ≠ [] ∨ r ≠ [])
    ∧ (dispatch cur a r st n h m).finalState.lastHash = notifHashOf a r
    ∧ (dispatch cur a r st n h m).finalState.lastSentAt = n := by
  unfold dispatch at hd ⊢
  by_cases h1 : a ≠ [] ∨ r ≠ []
  · rw [if_pos h1] at hd ⊢
    by_cases h2 : st.lastHash = notifHashOf a r ∧ n - st.lastSentAt < DEDUPE_COOLDOWN_MS
    · rw [if_pos h2] at hd
      simp [hasDiffSend] at hd
    · rw [if_neg h2] at hd ⊢
      exact ⟨h1, rfl, rfl⟩
  · rw [if_neg h1] at hd
    by_cases h3 : (h.emod 4 = 0 ∧ m < 5)
    · rw [if_pos h3] at hd
      simp [hasDiffSend, Send.isDiff] at hd
    · rw [if_neg h3] at hd
      simp [hasDiffSend] at hd

/-- A key with metadata after `addMeta` either already had metadata or is
the key just inserted. -/
theorem metaFind_addMeta (m : List (String × SlotMeta)) (key : String) (v : SlotMeta)
    (k : String) (h : (metaFind (addMeta m key v) k).isSome = true) :
    (metaFind m k).isSome = true ∨ k = key := by
  unfold addMeta at h
  split at h
  · exact Or.inl h
  · unfold metaFind at h ⊢
    rw [List.find?_append] at h
    cases hf : m.find? (fun p => p.1 = k) with
    | some w => simp [hf]
    | none =>
      rw [hf] at h
      by_cases hkk : k = key
      · exact Or.inr hkk
      · exfalso
        simp [List.find?, Ne.symm hkk] at h

theorem mem_addKey_self (ks : List String) (k : String) : k ∈ addKey ks k := by
  unfold addKey
  split
  · assumption
  · exact List.mem_append_right _ (List.mem_singleton.mpr rfl)

theorem mem_addKey_of_mem {ks : List String} {k : String} (k' : String) (h : k ∈ ks) :
    k ∈ addKey ks k' := by
  unfold addKey
  split
  · exact h
  · exact List.mem_append_left _ h

/-- One scan step preserves "every key with metadata is in the key set". -/
theorem processSlot_meta_sub_keys (d : String) (s : RawSlot)
    (a : List String × List (String × SlotMeta))
    (ih : ∀ k, (metaFind a.2 k).isSome = true → k ∈ a.1) :
    ∀ k, (metaFind (processSlot d s a).2 k).isSome = true → k ∈ (processSlot d s a).1 := by
  intro k hk
  cases hp : parseTime d s with
  | none =>
    rw [processSlot_none hp] at hk ⊢
    exact ih k hk
  | some dt =>
    rw [processSlot_some hp] at hk ⊢
    rcases metaFind_addMeta _ _ _ _ hk with hold | hnew
    · exact mem_addKey_of_mem _ (ih k hold)
    · rw [hnew]
      exact mem_addKey_self _ _

/-- Invariant: `processSlot` never records metadata for a key it does not also put
into the key set. -/
theorem meta_sub_keys (dated : List (String × List RawSlot)) :
    ∀ k, (metaFind (scanAll dated).2 k).isSome = true → k ∈ (scanAll dated).1 := by
  have inner : ∀ (d : String) (ss : List RawSlot) (a : List String × List (String × SlotMeta)),
      (∀ k, (metaFind a.2 k).isSome = true → k ∈ a.1) →
      ∀ k, (metaFind (ss.foldl (fun a s => processSlot d s a) a).2 k).isSome = true →
        k ∈ (ss.foldl (fun a s => processSlot d s a) a).1 := by
    intro d ss
    induction ss with
    | nil => exact fun a ih => ih
    | cons s ss ihs =>
      intro a ih
      exact ihs (processSlot d s a) (processSlot_meta_sub_keys d s a ih)
  have main : ∀ (l : List (String × List RawSlot)) (a : List String × List (String × SlotMeta)),
      (∀ k, (metaFind a.2 k).isSome = true → k ∈ a.1) →
      ∀ k, (metaFind (l.foldl (fun acc p => p.2.foldl (fun a s => processSlot p.1 s a) acc) a).2 k).isSome = true →
        k ∈ (l.foldl (fun acc p => p.2.foldl (fun a s => processSlot p.1 s a) acc) a).1 := by
    intro l
    induction l with
    | nil => exact fun a ih => ih
    | cons p ps ihl =>
      intro a ih
      exact ihl (p.2.foldl (fun a s => processSlot p.1 s a) a) (inner p.1 p.2 a ih)
  exact main dated ([], []) (by intro k hk; simp [metaFind] at hk)

/-- Keys drawn from outside the scan have no metadata, so
`groupLinesFromKeys` renders nothing for them; in particular the removed
keys of any run (absent from the current scan by construction) always
compose to an empty line list, leaving the "Removed availability" embed
unreachable. -/
theorem groupLines_no_meta (keys : List String) (metaMap : List (String × SlotMeta))
    (h : ∀ k ∈ keys, metaFind metaMap k = none) : groupLines keys metaMap = [] := by
  unfold groupLines
  have : keys.foldl (fun acc k =>
      match metaFind metaMap k with
      | none => acc
      | some m =>
        let tag := match m.slotsLeft with
          | some n => " [" ++ toString n ++ " left]"
          | none => ""
        labelAdd acc (m.dateUK ++ "|" ++ m.type) (m.timeHM ++ tag)) [] = [] := by
    induction keys with
    | nil => rfl
    | cons k ks ih =>
      simp only [List.foldl_cons, h k (List.mem_cons_self k ks)]
      exact ih (fun k hk => h k (List.mem_cons_of_mem _ hk))
  rw [this]
  rfl

theorem removed_lines_nil (dated : List (String × List RawSlot)) (prev : List String) :
    groupLines (removedOf prev (scanAll dated).1) (scanAll dated).2 = [] := by
  apply groupLines_no_meta
  intro k hk
  have hnotin : k ∉ (scanAll dated).1 := (mem_removedOf.mp hk).2
  cases hm : metaFind (scanAll dated).2 k with
  | none => rfl
  | some v =>
    exact absurd (meta_sub_keys dated k (by simp [hm])) hnotin

/-! ### The claims -/

/-- C1, code evaluation at the failing input.  With a non-empty prior
snapshot (`keys = ["2025-06-01|_|18:00"]`) and an empty current scan,
`removed` equals all prior keys and `added` is empty — but the run
dispatches nothing at all, instead of the "removed" notification the
claim promises: `groupLinesFromKeys` skips every key without metadata,
the metadata map built by the scan covers only currently-scanned keys,
so `removedLines` is `[]`, `somethingRemoved` is `false`, and the
"Removed availability" branch never fires. -/
theorem claimC1 :
    addedOf ["2025-06-01|_|18:00"] [] = []
    ∧ removedOf ["2025-06-01|_|18:00"] [] = ["2025-06-01|_|18:00"]
    ∧ (runMain { scan := [], file := some (.parsed (some ["2025-06-01|_|18:00"]) none none),
                 nowMs := 1000000, hours := 1, minutes := 0 }).sends = [] :=
  ⟨by decide, by decide, by decide⟩

def c2slotA : RawSlot := { start_time := some (.str "18:00"), slots_left := some 2 }

def c2slotB : RawSlot := { start_time := some (.str "18:00"), slots_left := some 5 }

/-- C2, confirmed.  Two raw slots on the same date differing only in
their remaining-capacity field (`slots_left`) produce the same `SlotKey`;
consequently two scans that differ only in remaining-capacity counts
build identical key sets, so their mutual diff has empty `added` and
empty `removed` — a capacity change alone never registers. -/
theorem claimC2 (d : String) (s1 s2 : RawSlot) (hs : eraseSL s1 = eraseSL s2)
    (dated1 dated2 : List (String × List RawSlot)) (hd : scanSameBR dated1 dated2 = true) :
    slotKeyOf d s1 = slotKeyOf d s2
    ∧ addedOf (scanAll dated1).1 (scanAll dated2).1 = []
    ∧ removedOf (scanAll dated1).1 (scanAll dated2).1 = [] := by
  have hkeys := scanAll_fst_congr hd
  exact ⟨slotKeyOf_congr d hs,
    by rw [hkeys]; exact addedOf_self _,
    by rw [hkeys]; exact removedOf_self _⟩

theorem claimC2_witness :
    eraseSL c2slotA = eraseSL c2slotB
    ∧ scanSameBR [("2025-06-01", [c2slotA])] [("2025-06-01", [c2slotB])] = true
    ∧ (slotKeyOf "2025-06-01" c2slotA = slotKeyOf "2025-06-01" c2slotB
       ∧ addedOf (scanAll [("2025-06-01", [c2slotA])]).1 (scanAll [("2025-06-01", [c2slotB])]).1 = []
       ∧ removedOf (scanAll [("2025-06-01", [c2slotA])]).1 (scanAll [("2025-06-01", [c2slotB])]).1 = []) :=
  ⟨by decide, by decide,
   claimC2 "2025-06-01" c2slotA c2slotB (by decide)
     [("2025-06-01", [c2slotA])] [("2025-06-01", [c2slotB])] (by decide)⟩

/-- C3, confirmed.  The diff of lines 361-363 puts a key in `added`
exactly when it is in the current key set and not the previous one, and
in `removed` exactly when it is in the previous key set and not the
current one. -/
theorem claimC3 (previousKeys currentKeys : List String) (k : String) :
    (k ∈ addedOf previousKeys currentKeys ↔ k ∈ currentKeys ∧ k ∉ previousKeys)
    ∧ (k ∈ removedOf previousKeys currentKeys ↔ k ∈ previousKeys ∧ k ∉ currentKeys) :=
  ⟨mem_addedOf, mem_removedOf⟩

/-- C4, confirmed.  If the diff is non-empty, the stored hash equals the
hash of the composed lines, and the previous send lies within the
2-minute cooldown, the dispatcher sends nothing; and across two
consecutive runs — the second loading the state the first persisted —
with identical composed diff lines and run times within the cooldown of
each other, at most one of the two dispatches a diff notification
(keepalive heartbeats, which the spec keeps independent of the dedup
cooldown, are not diff notifications). -/
theorem claimC4 (cur1 cur2 addedLines removedLines : List String) (st : StateFile)
    (n1 n2 h1 m1 h2 m2 : Int) (hcool : n2 - n1 < DEDUPE_COOLDOWN_MS) :
    ((addedLines ≠ [] ∨ removedLines ≠ []) →
      st.lastHash = notifHashOf addedLines removedLines →
      n1 - st.lastSentAt < DEDUPE_COOLDOWN_MS →
      (dispatch cur1 addedLines removedLines st n1 h1 m1).sends = [])
    ∧ ¬(hasDiffSend (dispatch cur1 addedLines removedLines st n1 h1 m1) = true
        ∧ hasDiffSend (dispatch cur2 addedLines removedLines
            (loadState (some (writeState
              (dispatch cur1 addedLines removedLines st n1 h1 m1).finalState)))
            n2 h2 m2) = true) := by
  constructor
  · intro hne hh hc
    exact dispatch_suppressed _ _ _ _ _ _ _ hne hh hc
  · rintro ⟨hd1, hd2⟩
    obtain ⟨hne, hh, ht⟩ := dispatch_sent _ _ _ _ _ _ _ hd1
    rw [loadState_writeState] at hd2
    have hs2 : (dispatch cur2 addedLines removedLines
        (dispatch cur1 addedLines removedLines st n1 h1 m1).finalState n2 h2 m2).sends = [] :=
      dispatch_suppressed _ _ _ _ _ _ _ hne hh (by rw [ht]; exact hcool)
    rw [hasDiffSend, hs2] at hd2
    simp at hd2

theorem claimC4_witness :
    ((1001000 : Int) - 1000000 < DEDUPE_COOLDOWN_MS)
    ∧ (((["lineA"] : List String) ≠ [] ∨ ([] : List String) ≠ [] →
        (⟨[], "", 0⟩ : StateFile).lastHash = notifHashOf ["lineA"] [] →
        (1000000 : Int) - (⟨[], "", 0⟩ : StateFile).lastSentAt < DEDUPE_COOLDOWN_MS →
        (dispatch ["k1"] ["lineA"] [] ⟨[], "", 0⟩ 1000000 1 0).sends = [])
      ∧ ¬(hasDiffSend (dispatch ["k1"] ["lineA"] [] ⟨[], "", 0⟩ 1000000 1 0) = true
          ∧ hasDiffSend (dispatch ["k1"] ["lineA"] []
              (loadState (some (writeState
                (dispatch ["k1"] ["lineA"] [] ⟨[], "", 0⟩ 1000000 1 0).finalState)))
              1001000 1 0) = true)) :=
  ⟨by decide, claimC4 ["k1"] ["k1"] ["lineA"] [] ⟨[], "", 0⟩ 1000000 1001000 1 0 1 0 (by decide)⟩

/-- C5, code evaluation at the failing input.  With a non-empty prior
snapshot and an empty current scan, the diff is non-empty (`removed`
holds all prior keys), yet at a keepalive instant (local hour 0, minute
0) the run sends the keepalive: the dispatcher's "no diff" test looks at
the composed line lists, and `removedLines` is always empty because the
metadata map covers only currently-scanned keys — so the keepalive is
not sent "exactly when the diff is empty". -/
theorem claimC5 :
    removedOf ["2025-06-01|_|18:00"] [] = ["2025-06-01|_|18:00"]
    ∧ (runMain { scan := [], file := some (.parsed (some ["2025-06-01|_|18:00"]) none none),
                 nowMs := 1000000, hours := 0, minutes := 0 }).sends = [Send.keepalive] :=
  ⟨by decide, by decide⟩

/-- C6, amended.  A numeric time value is interpreted as Unix seconds
when it is at most 10^12 and as milliseconds only when strictly greater:
`raw > 1e12 ? raw : raw * 1000` puts the boundary value 10^12 itself on
the seconds side, against the claim's "milliseconds … including at
exactly 10^12". -/
theorem claimC6 (isoDate : String) (v : RawSlot) (n : Int)
    (h : rawTimeOf v = some (.num n)) :
    parseTime isoDate v
      = some (jsDateOfMs (if 1000000000000 < n then n else n * 1000)) := by
  unfold parseTime
  rw [h]

theorem claimC6_witness :
    rawTimeOf ({ start_time := some (.num 1700000000) } : RawSlot) = some (.num 1700000000)
    ∧ parseTime "2025-01-01" ({ start_time := some (.num 1700000000) } : RawSlot)
        = some (jsDateOfMs (if 1000000000000 < (1700000000 : Int) then 1700000000 else 1700000000 * 1000)) :=
  ⟨by decide, claimC6 "2025-01-01" ({ start_time := some (.num 1700000000) } : RawSlot) 1700000000 (by decide)⟩

/-- C6 counterexample.  At exactly 10^12 the code takes the `else`
branch and multiplies by 1000 (seconds interpretation), yielding the
instant 10^15 ms — not the 10^12 ms instant the claim's milliseconds
interpretation would give. -/
theorem claimC6_counterexample :
    parseTime "2025-01-01" ({ start_time := some (.num 1000000000000) } : RawSlot)
      = some (JSDate.valid 1000000000000000)
    ∧ some (JSDate.valid 1000000000000000) ≠ some (JSDate.valid (1000000000000 : Int)) :=
  ⟨by decide, by decide⟩

/-- C7, amended.  Slots whose `parseTime` yields `null` are invisible to
the scan: filtering them away changes neither the key set nor the
metadata map, so a discarded slot contributes nothing to any diff; the
normalizer itself is a total function (no exception path exists in the
model).  The amendment: only a `null` parse discards a slot — a numeric
value always produces a `Date`, even out of range (see the
counterexample), so "no valid instant" does not always mean discarded. -/
theorem claimC7 (dated : List (String × List RawSlot)) :
    scanAll dated
      = scanAll (dated.map (fun p => (p.1, p.2.filter (fun s => (parseTime p.1 s).isSome)))) := by
  have inner : ∀ (d : String) (ss : List RawSlot) (a : List String × List (String × SlotMeta)),
      ss.foldl (fun a s => processSlot d s a) a
        = (ss.filter (fun s => (parseTime d s).isSome)).foldl (fun a s => processSlot d s a) a := by
    intro d ss
    induction ss with
    | nil => intro a; rfl
    | cons s ss ih =>
      intro a
      rw [List.foldl_cons, List.filter_cons]
      cases hp : parseTime d s with
      | none =>
        rw [processSlot_none hp]
        simp only [hp, Option.isSome_none, Bool.false_eq_true, if_false]
        exact ih a
      | some dt =>
        simp only [hp, Option.isSome_some, if_true, List.foldl_cons]
        exact ih _
  unfold scanAll
  rw [List.foldl_map]
  apply List.foldl_ext
  intro acc p _
  exact inner p.1 p.2 acc

/-- C7 counterexample.  The numeric value 9e15 exceeds the `Date` range:
no valid instant can be parsed from it, yet the slot is not discarded —
`parseTime` returns an Invalid Date object (truthy, so `if (!dt)
continue` does not fire) and the slot lands in the key set under an
"Invalid Date" time label. -/
theorem claimC7_counterexample :
    parseTime "2025-01-01" ({ start_time := some (.num 9000000000000000) } : RawSlot)
      = some JSDate.invalid
    ∧ (scanAll [("2025-01-01", [({ start_time := some (.num 9000000000000000) } : RawSlot)])]).1
        = ["2025-01-01|_|Invalid Date"] :=
  ⟨by decide, by decide⟩

/-- C8, confirmed.  A missing state file and a state file whose content
fails to parse both load as the default empty snapshot — empty key list,
empty hash, zero last-sent timestamp; `loadState` is a total function,
so no exception propagates. -/
theorem claimC8 :
    loadState none = ⟨[], "", 0⟩ ∧ loadState (some .malformed) = ⟨[], "", 0⟩ :=
  ⟨rfl, rfl⟩

/-- C9, confirmed.  No key is in both `added` and `removed`: membership
in `added` requires absence from the previous key set, membership in
`removed` requires presence in it. -/
theorem claimC9 (previousKeys currentKeys : List String) (k : String)
    (h : k ∈ addedOf previousKeys currentKeys) :
    k ∉ removedOf previousKeys currentKeys := by
  intro hr
  exact (mem_addedOf.mp h).2 (mem_removedOf.mp hr).1

theorem claimC9_witness :
    ("b" ∈ addedOf ["a"] ["b"]) ∧ "b" ∉ removedOf ["a"] ["b"] :=
  ⟨by decide, claimC9 ["a"] ["b"] "b" (by decide)⟩

/-- C10, confirmed.  Whatever the dispatcher decides — send, suppress
within the cooldown, keepalive, or nothing (and `sendEmbed` swallows
send failures, so a failed send changes nothing) — the persisted state's
key list is the full current scan's key set: line 373 overwrites
`state.keys` before any branch and line 412 persists unconditionally. -/
theorem claimC10 (inp : RunInput) :
    (runMain inp).finalState.keys = (scanAll inp.scan).1 := by
  simp only [runMain, dispatch]
  split
  · split <;> rfl
  · split <;> rfl

end Stampede
